import Mathlib

/-!
Shallow embedding of the JSON post-processing core of the video-notes tool:

* `streamlit_app.py`: `preprocess_transcript`, `split_transcript_by_parts`,
  `merge_all_json_outputs`, and the sequential chunk-processing driver loop;
* `utils.py`: `extract_clean_json` and the response-normalisation part of
  `run_analysis_and_summarize`.

Python values parsed from JSON are modelled by the inductive type `Json`
(floats are not needed by any claim and are omitted; JSON integers parse to
Python `int`).  Python `dict`s are modelled as insertion-ordered association
lists with unique keys, with `pyDictGet` / `pyDictSet` mirroring `d[k]` reads
and writes.  Python strings are Lean `String`s; the transcript-processing
functions work on `List Char` (one entry per code point, as in Python).
-/

namespace NotesApp

/-- A JSON value as produced by Python's `json.loads` (floats omitted). -/
inductive Json where
  | null : Json
  | bool : Bool → Json
  | int : Int → Json
  | str : String → Json
  | arr : List Json → Json
  | obj : List (String × Json) → Json

/-- Python truthiness (`if v:`) for parsed JSON values. -/
def pyTruthy : Json → Bool
  | .null => false
  | .bool b => b
  | .int n => n ≠ 0
  | .str s => s ≠ ""
  | .arr l => !l.isEmpty
  | .obj l => !l.isEmpty

/-- Truthiness of `d.get(k)`: `None` (absent key) is falsy. -/
def pyTruthyOpt : Option Json → Bool
  | none => false
  | some j => pyTruthy j

/-- Python `str.strip` whitespace set (ASCII part: space, \t, \n, \r, \v, \f). -/
def pyIsSpaceChar (c : Char) : Bool :=
  c = ' ' || c = '\t' || c = '\n' || c = '\r' || c = '\x0b' || c = '\x0c'

/-- Python `s.strip()` on a list of characters. -/
def stripLC (l : List Char) : List Char :=
  ((l.dropWhile pyIsSpaceChar).reverse.dropWhile pyIsSpaceChar).reverse

/-- Python `s.strip()` on a string. -/
def pyStrip (s : String) : String :=
  String.mk (stripLC s.data)

/-- Python slice `s[a:b]` for non-negative bounds. -/
def sliceLC (s : List Char) (a b : Nat) : List Char :=
  (s.take b).drop a

/-- Lookup in a Python dict modelled as an insertion-ordered association list
(`d.get(k)` / `k in d`). -/
def pyDictGet : List (String × Json) → String → Option Json
  | [], _ => none
  | (k', v') :: rest, k => if k' = k then some v' else pyDictGet rest k

/-- Python dict assignment `d[k] = v`: update in place if the key is present
(keeping its position), otherwise append at the end. -/
def pyDictSet : List (String × Json) → String → Json → List (String × Json)
  | [], k, v => [(k, v)]
  | (k', v') :: rest, k, v =>
      if k' = k then (k', v) :: rest else (k', v') :: pyDictSet rest k v

/-! ### `json.dumps(item, sort_keys=True)`

`merge_all_json_outputs` hashes items with `json.dumps(item, sort_keys=True)`.
With `sort_keys=True` every object's entries are serialised in increasing key
order; we model this by first sorting all object entries recursively
(`sortJson`) and then serialising (`dumps0`). -/

/-- Insert an entry into a key-sorted entry list (stable insertion). -/
def insertEntry (p : String × Json) : List (String × Json) → List (String × Json)
  | [] => [p]
  | q :: rest => if p.1 < q.1 then p :: q :: rest else q :: insertEntry p rest

/-- Insertion sort of object entries by key (Python `sorted` on `str` keys is
lexicographic on code points, as is `String.lt`). -/
def sortEntries : List (String × Json) → List (String × Json)
  | [] => []
  | p :: rest => insertEntry p (sortEntries rest)

mutual

/-- Recursively sort every object's entries by key. -/
def sortJson : Json → Json
  | .null => .null
  | .bool b => .bool b
  | .int n => .int n
  | .str s => .str s
  | .arr l => .arr (sortJsonList l)
  | .obj l => .obj (sortEntries (sortJsonEntries l))

/-- Map `sortJson` over array elements. -/
def sortJsonList : List Json → List Json
  | [] => []
  | x :: rest => sortJson x :: sortJsonList rest

/-- Map `sortJson` over object entry values. -/
def sortJsonEntries : List (String × Json) → List (String × Json)
  | [] => []
  | (k, v) :: rest => (k, sortJson v) :: sortJsonEntries rest

end

/-- One hex digit (lower case, as emitted by `json.dumps`). -/
def hexDig (n : Nat) : Char :=
  if n < 10 then Char.ofNat (48 + n) else Char.ofNat (87 + n)

/-- A `\uXXXX` escape for a 16-bit value. -/
def uEsc (n : Nat) : List Char :=
  ['\\', 'u', hexDig (n / 4096 % 16), hexDig (n / 256 % 16), hexDig (n / 16 % 16), hexDig (n % 16)]

/-- Escape one character inside a JSON string literal, matching `json.dumps`
with its default `ensure_ascii=True`. -/
def escChar (c : Char) : List Char :=
  if c = '"' then ['\\', '"']
  else if c = '\\' then ['\\', '\\']
  else if c = '\n' then ['\\', 'n']
  else if c = '\t' then ['\\', 't']
  else if c = '\r' then ['\\', 'r']
  else if c = '\x08' then ['\\', 'b']
  else if c = '\x0c' then ['\\', 'f']
  else if c.toNat < 32 then uEsc c.toNat
  else if c.toNat < 127 then [c]
  else if c.toNat < 65536 then uEsc c.toNat
  else uEsc (55296 + (c.toNat - 65536) / 1024) ++ uEsc (56320 + (c.toNat - 65536) % 1024)

/-- Serialise a string with quotes and escapes. -/
def dumpsStr (s : String) : String :=
  "\"" ++ String.mk (s.data.map escChar).flatten ++ "\""

mutual

/-- Serialise a `Json` value the way `json.dumps` does with its default
separators `(", ", ": ")`, assuming object entries are already key-sorted. -/
def dumps0 : Json → String
  | .null => "null"
  | .bool true => "true"
  | .bool false => "false"
  | .int n => toString n
  | .str s => dumpsStr s
  | .arr l => "[" ++ dumps0List l ++ "]"
  | .obj l => "\x7b" ++ dumps0Entries l ++ "\x7d"

/-- Comma-separated serialisation of array elements. -/
def dumps0List : List Json → String
  | [] => ""
  | [x] => dumps0 x
  | x :: y :: rest => dumps0 x ++ ", " ++ dumps0List (y :: rest)

/-- Comma-separated serialisation of object entries. -/
def dumps0Entries : List (String × Json) → String
  | [] => ""
  | [(k, v)] => dumpsStr k ++ ": " ++ dumps0 v
  | (k, v) :: q :: rest => dumpsStr k ++ ": " ++ dumps0 v ++ ", " ++ dumps0Entries (q :: rest)

end

/-- `json.dumps(item, sort_keys=True)` as used for deduplication hashes. -/
def dumpsSorted (j : Json) : String :=
  dumps0 (sortJson j)

/-! ### Python `str()` of parsed JSON values

`merge_all_json_outputs` adopts a subject with `str(v).strip()`.  For
containers Python's `str` is `repr`; we model `repr` for the values that can
come out of `json.loads` (single-quote preference with CPython's quote-choice
rule; escaping of backslashes, quotes, and the common control characters). -/

/-- Escape one character inside a Python `repr` string literal delimited by
`q`. -/
def reprEsc (q : Char) (c : Char) : List Char :=
  if c = '\\' then ['\\', '\\']
  else if c = q then ['\\', q]
  else if c = '\n' then ['\\', 'n']
  else if c = '\t' then ['\\', 't']
  else if c = '\r' then ['\\', 'r']
  else [c]

/-- CPython `repr` of a string: single quotes, unless the string contains a
single quote and no double quote. -/
def pyReprStr (s : String) : String :=
  let q : Char := if s.data.contains '\'' && !s.data.contains '"' then '"' else '\''
  String.mk (q :: (s.data.map (reprEsc q)).flatten ++ [q])

mutual

/-- Python `repr` of a parsed JSON value. -/
def pyRepr : Json → String
  | .null => "None"
  | .bool true => "True"
  | .bool false => "False"
  | .int n => toString n
  | .str s => pyReprStr s
  | .arr l => "[" ++ pyReprList l ++ "]"
  | .obj l => "\x7b" ++ pyReprEntries l ++ "\x7d"

/-- Comma-separated `repr` of list elements. -/
def pyReprList : List Json → String
  | [] => ""
  | [x] => pyRepr x
  | x :: y :: rest => pyRepr x ++ ", " ++ pyReprList (y :: rest)

/-- Comma-separated `repr` of dict entries (insertion order). -/
def pyReprEntries : List (String × Json) → String
  | [] => ""
  | [(k, v)] => pyReprStr k ++ ": " ++ pyRepr v
  | (k, v) :: q :: rest => pyReprStr k ++ ": " ++ pyRepr v ++ ", " ++ pyReprEntries (q :: rest)

end

/-- Python `str()` of a parsed JSON value (`str` on strings is the identity,
containers fall back to `repr`). -/
def pyStr : Json → String
  | .null => "None"
  | .bool true => "True"
  | .bool false => "False"
  | .int n => toString n
  | .str s => s
  | .arr l => pyRepr (.arr l)
  | .obj l => pyRepr (.obj l)

/-! ### Key canonicalisation (utils.py lines 275-281)

`snake_key = re.sub(r'(?<!^)(?=[A-Z])', '_', key).lower()`: insert an
underscore before every ASCII capital that is not the first character, then
lower-case the whole string. -/

/-- Membership of `[A-Z]` (the regex class is plain ASCII). -/
def isUpperAscii (c : Char) : Bool :=
  65 ≤ c.toNat && c.toNat ≤ 90

/-- Python `str.lower` restricted to ASCII capitals (the only case the claims
exercise; CPython additionally lowers non-ASCII cased letters). -/
def pyLowerChar (c : Char) : Char :=
  if 65 ≤ c.toNat ∧ c.toNat ≤ 90 then Char.ofNat (c.toNat + 32) else c

/-- Underscore insertion at every capital after the first character. -/
def snakeTail : List Char → List Char
  | [] => []
  | c :: rest => (if isUpperAscii c then ['_', c] else [c]) ++ snakeTail rest

/-- The `re.sub(r'(?<!^)(?=[A-Z])', '_', key)` pass: position 0 is excluded by
the `(?<!^)` look-behind. -/
def snakeSub : List Char → List Char
  | [] => []
  | c :: rest => c :: snakeTail rest

/-- The whole key conversion: underscore insertion followed by `.lower()`. -/
def snakeChars (key : List Char) : List Char :=
  (snakeSub key).map pyLowerChar

/-- Key conversion on strings, as applied to each top-level key of the parsed
model response. -/
def snakeKeyStr (key : String) : String :=
  String.mk (snakeChars key.data)

/-- The key-normalisation loop of `run_analysis_and_summarize`
(utils.py lines 276-281): `normalized_data[snake_key] = value` over the parsed
object's items in order. -/
def normalizeData (items : List (String × Json)) : List (String × Json) :=
  items.foldl (fun acc p => pyDictSet acc (snakeKeyStr p.1) p.2) []

/-! ### `extract_clean_json` (utils.py lines 96-106)

The fenced-code-block delimiters are erased with
`re.sub(r'```json\s*', '', t)` then `re.sub(r'```\s*', '', t)`; afterwards
`re.search(r'\{.*\}', t.strip(), re.DOTALL)` returns the span from the first
opening brace to the last closing brace (leftmost-longest match), when a
closing brace occurs after an opening one. -/

/-- Drop a maximal run of whitespace (the `\s*` part of the substitution
patterns). -/
def dropWs (l : List Char) : List Char :=
  l.dropWhile pyIsSpaceChar

/-- One `re.sub(lit + r'\s*', '', s)` pass: scan left to right, erase each
occurrence of the literal together with the following whitespace run, and
resume scanning after the erased region.  `fuel` bounds the recursion; each
step consumes at least one character, so `s.length + 1` is always enough. -/
def subLitWs (lit : List Char) : Nat → List Char → List Char
  | 0, s => s
  | _ + 1, [] => []
  | fuel + 1, c :: rest =>
      if lit.isPrefixOf (c :: rest) then
        subLitWs lit fuel (dropWs ((c :: rest).drop lit.length))
      else
        c :: subLitWs lit fuel rest

/-- `re.sub(lit + r'\s*', '', s)` with adequate fuel. -/
def reSubLitWs (lit s : List Char) : List Char :=
  subLitWs lit (s.length + 1) s

/-- Index of the first `'\x7b'` in the text, if any. -/
def firstOpenIdx (s : List Char) : Option Nat :=
  s.findIdx? (· = '\x7b')

/-- Index of the last `'\x7d'` in the text, if any. -/
def lastCloseIdx (s : List Char) : Option Nat :=
  (s.reverse.findIdx? (· = '\x7d')).map (fun r => s.length - 1 - r)

/-- `extract_clean_json(response_text)`: strip code fences, strip outer
whitespace, and return the greedy `\{.*\}` match — the span from the first
opening brace to the last closing brace — when one exists. -/
def extract_clean_json (response_text : List Char) : Option (List Char) :=
  let t1 := reSubLitWs "```json".data response_text
  let t2 := reSubLitWs "```".data t1
  let t := stripLC t2
  match firstOpenIdx t, lastCloseIdx t with
  | some i, some j => if i < j then some (sliceLC t i (j + 1)) else none
  | _, _ => none

/-! ### `run_analysis_and_summarize` (utils.py lines 218-308)

Only the response-handling part is modelled; prompt construction (a pure
string format independent of the control flow) and the console prints are
omitted, and the constant third tuple component (`full_prompt`) is dropped.
The external world is a parameter: `ProviderResult` is the outcome of the
`genai` calls (an exception, or a response whose extracted text may be
absent), and `loads` stands for `json.loads`, returning either the parsed
object or the message of a `json.JSONDecodeError`. -/

/-- Outcome of the external generation call as seen at the `try` block:
either some exception was raised, or a response was produced from which
`extract_gemini_text` extracted `text` (possibly `None`). -/
inductive ProviderResult where
  | raised : String → ProviderResult
  | returned : Option String → ProviderResult

/-- The branching of `run_analysis_and_summarize` from the `if not api_key`
guard to the `return` statements, with all failure paths converted to
`(None, reason)` and the success path to `(normalized_data, None)`. -/
def run_analysis_and_summarize (api_key : String) (provider : ProviderResult)
    (loads : String → Except String (List (String × Json))) :
    Option (List (String × Json)) × Option String :=
  if api_key = "" then
    (none, some "API Key Missing")
  else
    match provider with
    | .raised e => (none, some ("Gemini API Error: " ++ e))
    | .returned response_text =>
        match response_text with
        | none => (none, some "Empty response from model.")
        | some t =>
            if t = "" then
              (none, some "Empty response from model.")
            else
              match extract_clean_json t.data with
              | none => (none, some "Could not extract JSON from response.")
              | some cleaned =>
                  match loads (String.mk cleaned) with
                  | .error e => (none, some ("JSON PARSE ERROR: " ++ e))
                  | .ok json_data => (some (normalizeData json_data), none)

/-! ### `merge_all_json_outputs` (streamlit_app.py lines 108-143) -/

/-- The nine section keys, in the order of `LABEL_TO_KEY.values()`. -/
def LIST_KEYS : List String :=
  ["topic_breakdown", "key_vocabulary", "formulas_and_principles",
   "teacher_insights", "exam_focus_points", "common_mistakes_explained",
   "key_points", "short_tricks", "must_remembers"]

/-- `LABEL_TO_KEY.get(k, k)`: map a friendly label to its JSON key, leaving
every other key unchanged. -/
def labelToKey (k : String) : String :=
  if k = "Topic Breakdown" then "topic_breakdown"
  else if k = "Key Vocabulary" then "key_vocabulary"
  else if k = "Formulas & Principles" then "formulas_and_principles"
  else if k = "Teacher Insights" then "teacher_insights"
  else if k = "Exam Focus Points" then "exam_focus_points"
  else if k = "Common Mistakes" then "common_mistakes_explained"
  else if k = "Key Points" then "key_points"
  else if k = "Short Tricks" then "short_tricks"
  else if k = "Must Remembers" then "must_remembers"
  else k

/-- The dict comprehension
`res_normalized = {LABEL_TO_KEY.get(k, k): v for k, v in res.items()}`. -/
def normalizeChunk (res : List (String × Json)) : List (String × Json) :=
  res.foldl (fun acc p => pyDictSet acc (labelToKey p.1) p.2) []

/-- The initial combined dict: `{"main_subject": ""}` followed by the nine
section keys bound to empty lists. -/
def combinedInit : List (String × Json) :=
  ("main_subject", .str "") :: LIST_KEYS.map (fun k => (k, .arr []))

/-- The body of `for k, v in res_normalized.items()`: adopt a subject when the
combined subject is still falsy and `v` is truthy, extend a section list when
`v` is a list and `k` is a section key, ignore everything else. -/
def mergeItem (combined : List (String × Json)) (kv : String × Json) :
    List (String × Json) :=
  if kv.1 = "main_subject" then
    if !pyTruthyOpt (pyDictGet combined "main_subject") && pyTruthy kv.2 then
      pyDictSet combined "main_subject" (.str (pyStrip (pyStr kv.2)))
    else
      combined
  else
    match kv.2 with
    | .arr v =>
        if kv.1 ∈ LIST_KEYS then
          match pyDictGet combined kv.1 with
          | some (.arr old) => pyDictSet combined kv.1 (.arr (old ++ v))
          | _ => combined
        else
          combined
    | _ => combined

/-- The accumulation phase of `merge_all_json_outputs`: fold every chunk's
normalised items into the combined dict. -/
def mergeChunks (results : List (List (String × Json))) : List (String × Json) :=
  results.foldl (fun combined res => (normalizeChunk res).foldl mergeItem combined)
    combinedInit

/-- The dedup loop body: keep an item when its
`json.dumps(item, sort_keys=True)` hash has not been seen, remembering seen
hashes. -/
def dedupFirstAux : List Json → List String → List Json
  | [], _ => []
  | item :: rest, seen =>
      if dumpsSorted item ∈ seen then
        dedupFirstAux rest seen
      else
        item :: dedupFirstAux rest (dumpsSorted item :: seen)

/-- First-occurrence-wins deduplication by `json.dumps(item, sort_keys=True)`
hash. -/
def dedupFirst (l : List Json) : List Json :=
  dedupFirstAux l []

/-- One step of the dedup phase (`if combined[k]: combined[k] = unique_items`):
replace key `k` by its deduplicated list when its current list is truthy
(non-empty). -/
def dedupStep (c : List (String × Json)) (k : String) : List (String × Json) :=
  match pyDictGet c k with
  | some (.arr l) => if !l.isEmpty then pyDictSet c k (.arr (dedupFirst l)) else c
  | _ => c

/-- The dedup phase: the dedup step applied at every section key. -/
def dedupPass (combined : List (String × Json)) : List (String × Json) :=
  LIST_KEYS.foldl dedupStep combined

/-- `merge_all_json_outputs(results)`. -/
def merge_all_json_outputs (results : List (List (String × Json))) :
    List (String × Json) :=
  dedupPass (mergeChunks results)

/-! ### `split_transcript_by_parts` (streamlit_app.py lines 93-106) -/

/-- `split_transcript_by_parts(transcript, num_parts)`: clamp the requested
part count to `max(1, min(num_parts, len(text)))`, take `part_size` to be the
integer quotient, and emit the slices `text[i*part_size:(i+1)*part_size]`
with the last part absorbing the remainder. -/
def split_transcript_by_parts (transcript : List Char) (num_parts : Int) :
    List (List Char) :=
  let length := transcript.length
  let clamped : Int := max 1 (min num_parts (length : Int))
  let nn : Nat := clamped.toNat
  let part_size : Nat := length / nn
  (List.range nn).map fun i =>
    sliceLC transcript (i * part_size)
      (if i < nn - 1 then (i + 1) * part_size else length)

/-! ### `preprocess_transcript` (streamlit_app.py lines 73-91)

The timestamp regex is `r'\[?(\d{1,2}:\d{2}(?::\d{2})?)\]?'`.  `re.finditer`
scans positions left to right, taking at each position the leftmost match with
greedy (backtracking) quantifiers and resuming after the match end.  Because
`'['` can never begin the digit core, the `\[?` alternative collapses to:
when the scanned position holds `'['` the core must match right after it. -/

/-- Membership of the regex class `\d` (ASCII digits for these patterns). -/
def isDigitChar (c : Char) : Bool :=
  48 ≤ c.toNat && c.toNat ≤ 57

/-- Whether position `i` of the text holds a digit. -/
def digAt (s : List Char) (i : Nat) : Bool :=
  match s.get? i with
  | some c => isDigitChar c
  | none => false

/-- Whether position `i` of the text holds exactly `c`. -/
def chAt (s : List Char) (i : Nat) (c : Char) : Bool :=
  s.get? i = some c

/-- The optional `(?::\d{2})?` group starting at `p`: consume `:dd` when
present, else match empty. -/
def tsOptEnd (s : List Char) (p : Nat) : Nat :=
  if chAt s p ':' && digAt s (p + 1) && digAt s (p + 2) then p + 3 else p

/-- The group core `\d{1,2}:\d{2}(?::\d{2})?` at position `j`: the greedy
`\d{1,2}` first tries two digits and backtracks to one; the trailing optional
group never fails, so no further backtracking occurs.  Returns the exclusive
end of the group. -/
def tsCoreEnd (s : List Char) (j : Nat) : Option Nat :=
  if digAt s j && digAt s (j + 1) && chAt s (j + 2) ':'
      && digAt s (j + 3) && digAt s (j + 4) then
    some (tsOptEnd s (j + 5))
  else if digAt s j && chAt s (j + 1) ':' && digAt s (j + 2) && digAt s (j + 3) then
    some (tsOptEnd s (j + 4))
  else
    none

/-- A whole-pattern match attempt at position `i`.  Returns
`(match_end, group_start, group_end)`: the optional brackets belong to the
match but not to group 1. -/
def tsMatchAt (s : List Char) (i : Nat) : Option (Nat × Nat × Nat) :=
  if chAt s i '[' then
    (tsCoreEnd s (i + 1)).map fun ge =>
      (if chAt s ge ']' then ge + 1 else ge, i + 1, ge)
  else
    (tsCoreEnd s i).map fun ge =>
      (if chAt s ge ']' then ge + 1 else ge, i, ge)

/-- One recorded match: `(start, match_end, group_start, group_end)`. -/
abbrev TsMatch := Nat × Nat × Nat × Nat

/-- The `re.finditer` scan: try each position, record a match and resume at
its end (every match spans at least four characters, so positions strictly
increase and `s.length + 1` fuel always suffices). -/
def tsFindAux (s : List Char) : Nat → Nat → List TsMatch
  | 0, _ => []
  | fuel + 1, i =>
      if s.length ≤ i then []
      else
        match tsMatchAt s i with
        | some (e, gs, ge) => (i, e, gs, ge) :: tsFindAux s fuel (max (i + 1) e)
        | none => tsFindAux s fuel (i + 1)

/-- `list(re.finditer(pattern, text))`. -/
def tsFind (s : List Char) : List TsMatch :=
  tsFindAux s (s.length + 1) 0

/-- One transcript segment as built by `preprocess_transcript`: note that the
`time` field holds the raw matched timestamp token (`match.group(1)`), a
string such as `"00:45"`, not a number of seconds. -/
structure Segment where
  time : String
  text : String
deriving DecidableEq, Repr

/-- The segment built for match index `i` of the match list: its text runs
from this match's end to the next match's start (or the end of the text) and
is stripped; its time is group 1 of this match. -/
def segIdx (text : List Char) (ms : List TsMatch) (i : Nat) : Segment :=
  let m := ms.getD i (0, 0, 0, 0)
  let e := if i + 1 < ms.length then (ms.getD (i + 1) (0, 0, 0, 0)).1 else text.length
  { time := String.mk (sliceLC text m.2.2.1 m.2.2.2)
    text := String.mk (stripLC (sliceLC text m.2.1 e)) }

/-- `preprocess_transcript(text)`: with no timestamp match, one segment with
time `"00:00"` for non-empty text and no segment for empty text; otherwise the
`for i in range(len(matches))` loop. -/
def preprocess_transcript (text : List Char) : List Segment :=
  let ms := tsFind text
  if ms.isEmpty then
    if !text.isEmpty then
      [{ time := "00:00", text := String.mk (stripLC text) }]
    else
      []
  else
    (List.range ms.length).map (segIdx text ms)

/-! ### The sequential chunk driver (streamlit_app.py lines 365-391, 399-415)

One loop iteration receives the `(data_json, error_msg)` pair for its part.
On a truthy `data_json` the result is appended to
`st.session_state['chunked_results']`; otherwise `st.error` reports the
failure, the accumulated results are cleared, and the loop breaks.  The merge
section runs only afterwards, guarded by
`if st.session_state['chunked_results']:`. -/

/-- The chunk loop: returns the final accumulated results together with the
reported error (`some msg` when the failure branch ran, carrying the
`error_msg` interpolated into the `st.error` message). -/
def chunkLoop :
    List (Option (List (String × Json)) × Option String) →
    List (List (String × Json)) →
    List (List (String × Json)) × Option (Option String)
  | [], acc => (acc, none)
  | (data_json, error_msg) :: rest, acc =>
      match data_json with
      | some d => if !d.isEmpty then chunkLoop rest (acc ++ [d]) else ([], some error_msg)
      | none => ([], some error_msg)

/-- The whole run: loop over the per-part outcomes, then merge only when the
accumulated results are non-empty (the PDF renderer is likewise only reached
inside that guarded section). -/
def runPipeline (outcomes : List (Option (List (String × Json)) × Option String)) :
    List (List (String × Json)) × Option (Option String) ×
      Option (List (String × Json)) :=
  let step := chunkLoop outcomes []
  (step.1, step.2, if step.1.isEmpty then none else some (merge_all_json_outputs step.1))

/-! ### Spec-side definitions

These definitions follow the wording of the specification (not the source);
they exist only to be compared with the source-derived definitions above. -/

/-- Modelled from the spec: the canonical dedup key — "order-independent
serialization of dict/list items; plain string conversion otherwise". -/
def specCanonKey : Json → String
  | .arr l => dumpsSorted (.arr l)
  | .obj l => dumpsSorted (.obj l)
  | j => pyStr j

/-- Modelled from the spec: first-occurrence-wins dedup keyed by
`specCanonKey`. -/
def specDedupAux : List Json → List String → List Json
  | [], _ => []
  | item :: rest, seen =>
      if specCanonKey item ∈ seen then
        specDedupAux rest seen
      else
        item :: specDedupAux rest (specCanonKey item :: seen)

/-- Modelled from the spec: dedup of a combined section list. -/
def specDedup (l : List Json) : List Json :=
  specDedupAux l []

/-- Modelled from the spec: "the merged `main_subject` is the trimmed subject
of the first chunk (in chunk order) whose `main_subject` is non-empty, and the
empty string when no chunk supplies a non-empty subject". -/
def specAdoptedSubject : List (List (String × Json)) → String
  | [] => ""
  | res :: rest =>
      match pyDictGet res "main_subject" with
      | some (.str s) => if s ≠ "" then pyStrip s else specAdoptedSubject rest
      | _ => specAdoptedSubject rest

/-- The amended subject rule actually implemented by the code: the first chunk
whose subject is truthy and trims to a non-empty string wins. -/
def firstTrimmedSubject : List (List (String × Json)) → String
  | [] => ""
  | res :: rest =>
      match pyDictGet res "main_subject" with
      | some v =>
          if pyTruthy v && pyStrip (pyStr v) ≠ "" then
            pyStrip (pyStr v)
          else
            firstTrimmedSubject rest
      | none => firstTrimmedSubject rest

/-- Modelled from the spec: the seconds value denoted by a `[hh:]mm:ss`
timestamp token (used to compare the stored `time` field against the claim's
"parsed non-negative integer seconds value"). -/
def specTsSeconds (ts : List Char) : Nat :=
  let fields := (ts.splitOn ':').map (fun f => f.foldl (fun n c => 10 * n + (c.toNat - 48)) 0)
  match fields with
  | [m, s] => 60 * m + s
  | [h, m, s] => 3600 * h + 60 * m + s
  | _ => 0

/-- The elements of a JSON list value (`[]` for any non-list value). -/
def arrElems : Json → List Json
  | .arr l => l
  | .null => []
  | .bool _ => []
  | .int _ => []
  | .str _ => []
  | .obj _ => []

/-- The concatenation of the chunks' sequences for section key `k` (a chunk
contributes the list bound to `k`, or nothing when `k` is absent or bound to a
non-list). -/
def chunkSection (k : String) (res : List (String × Json)) : List Json :=
  match pyDictGet res k with
  | some v => arrElems v
  | none => []

/-- The per-key concatenation over all chunks, in chunk order. -/
def sectionConcat (k : String) (results : List (List (String × Json))) : List Json :=
  (results.map (chunkSection k)).flatten

/-- The contribution of a list of dict items to section key `k`: every entry
keyed `k` whose value is a list contributes its elements, in order (used to
characterise the merge fold). -/
def itemsConcatKey (k : String) : List (String × Json) → List Json
  | [] => []
  | (k', v) :: rest => (if k' = k then arrElems v else []) ++ itemsConcatKey k rest

/-- The subject accumulator threaded through one chunk's items: a
`main_subject` entry is adopted (stripped stringification) when the running
subject is still empty and the value is truthy. -/
def itemsSubject (s0 : String) : List (String × Json) → String
  | [] => s0
  | (k', v) :: rest =>
      if k' = "main_subject" ∧ s0 = "" ∧ pyTruthy v then
        itemsSubject (pyStrip (pyStr v)) rest
      else
        itemsSubject s0 rest

/-- The subject update contributed by one whole chunk. -/
def chunkAdopt (s0 : String) (res : List (String × Json)) : String :=
  match pyDictGet res "main_subject" with
  | some v => if s0 = "" ∧ pyTruthy v then pyStrip (pyStr v) else s0
  | none => s0

/-- The subject accumulated over a list of chunks. -/
def subjectAccum (s0 : String) : List (List (String × Json)) → String
  | [] => s0
  | res :: rest => subjectAccum (chunkAdopt s0 res) rest

/-- The recursive description of the segment list built from the matches: each
segment carries group 1 of its match as `time` and the stripped span from its
match's end to the next match's start (end of text for the last) as `text`. -/
def segsRec (text : List Char) : List TsMatch → List Segment
  | [] => []
  | [m] =>
      [{ time := String.mk (sliceLC text m.2.2.1 m.2.2.2)
         text := String.mk (stripLC (sliceLC text m.2.1 text.length)) }]
  | m :: m2 :: rest =>
      { time := String.mk (sliceLC text m.2.2.1 m.2.2.2)
        text := String.mk (stripLC (sliceLC text m.2.1 m2.1)) } :: segsRec text (m2 :: rest)

/-! ## Lemmas and claim theorems -/

theorem toNat_ofNat_valid (n : Nat) (h : n.isValidChar) : (Char.ofNat n).toNat = n := by
  simp only [Char.ofNat, dif_pos h, Char.ofNatAux, Char.toNat, UInt32.toNat]
  simp

theorem pyLowerChar_not_upper (c : Char) : isUpperAscii (pyLowerChar c) = false := by
  unfold pyLowerChar isUpperAscii
  split
  · next h =>
    rw [toNat_ofNat_valid _ (Or.inl (by omega))]
    simp
    omega
  · next h =>
    simp
    omega

theorem pyLowerChar_eq_self (c : Char) (h : isUpperAscii c = false) :
    pyLowerChar c = c := by
  unfold pyLowerChar
  unfold isUpperAscii at h
  rw [if_neg]
  simp at h
  omega

theorem snakeTail_of_no_upper (l : List Char) (h : ∀ c ∈ l, isUpperAscii c = false) :
    snakeTail l = l := by
  induction l with
  | nil => rfl
  | cons c rest ih =>
      rw [snakeTail, h c (by simp), ih (fun d hd => h d (by simp [hd]))]
      simp

theorem snakeChars_no_upper (k : List Char) :
    ∀ c ∈ snakeChars k, isUpperAscii c = false := by
  intro c hc
  unfold snakeChars at hc
  obtain ⟨d, _, rfl⟩ := List.mem_map.mp hc
  exact pyLowerChar_not_upper d

theorem map_pyLowerChar_of_no_upper (l : List Char)
    (h : ∀ c ∈ l, isUpperAscii c = false) : l.map pyLowerChar = l := by
  induction l with
  | nil => rfl
  | cons c rest ih =>
      rw [List.map_cons, pyLowerChar_eq_self c (h c (by simp)),
        ih (fun d hd => h d (by simp [hd]))]

theorem snakeChars_of_no_upper (l : List Char)
    (h : ∀ c ∈ l, isUpperAscii c = false) : snakeChars l = l := by
  unfold snakeChars
  cases l with
  | nil => rfl
  | cons c rest =>
      rw [snakeSub, snakeTail_of_no_upper rest (fun d hd => h d (by simp [hd]))]
      exact map_pyLowerChar_of_no_upper _ h

/-- C9: the top-level key canonicalisation (underscore before every non-initial
capital, then lower-case) is idempotent, and it is a no-op on keys that contain
no ASCII capital — in particular on already-snake_case keys. -/
theorem C9_key_canonicalization_idempotent :
    (∀ k : String, snakeKeyStr (snakeKeyStr k) = snakeKeyStr k) ∧
    (∀ k : String, (∀ c ∈ k.data, isUpperAscii c = false) → snakeKeyStr k = k) := by
  constructor
  · intro k
    show String.mk (snakeChars (String.mk (snakeChars k.data)).data) = String.mk (snakeChars k.data)
    rw [show (String.mk (snakeChars k.data)).data = snakeChars k.data from rfl,
      snakeChars_of_no_upper _ (snakeChars_no_upper k.data)]
  · intro k h
    show String.mk (snakeChars k.data) = k
    rw [snakeChars_of_no_upper _ h]

/-- Witness for C9 at concrete keys. -/
theorem C9_key_canonicalization_idempotent_witness :
    snakeKeyStr (snakeKeyStr "topicBreakdown") = snakeKeyStr "topicBreakdown" ∧
    snakeKeyStr "topic_breakdown" = "topic_breakdown" :=
  ⟨C9_key_canonicalization_idempotent.1 "topicBreakdown",
   C9_key_canonicalization_idempotent.2 "topic_breakdown" (by decide)⟩

theorem sliceLC_append (s : List Char) (a b c : Nat) (hab : a ≤ b) (hbc : b ≤ c)
    (hc : c ≤ s.length) : sliceLC s a b ++ sliceLC s b c = sliceLC s a c := by
  unfold sliceLC
  have h1 : (s.take c).take b = s.take b := by
    rw [List.take_take]
    congr 1
    omega
  have h2 : s.take c = s.take b ++ (s.take c).drop b := by
    conv_lhs => rw [← List.take_append_drop b (s.take c)]
    rw [h1]
  have hlen : (s.take b).length = b := by
    rw [List.length_take]
    omega
  conv_rhs => rw [h2]
  rw [List.drop_append_eq_append_drop, hlen, Nat.sub_eq_zero_of_le hab, List.drop_zero]

theorem join_slices (s : List Char) (n ps : Nat) (hle : n * ps ≤ s.length) :
    ∀ cnt k, cnt + k = n → 0 < cnt →
      ((List.range' k cnt).map
          (fun i => sliceLC s (i * ps) (if i < n - 1 then (i + 1) * ps else s.length))).flatten
        = sliceLC s (k * ps) s.length := by
  intro cnt
  induction cnt with
  | zero => omega
  | succ m ih =>
      intro k hk _
      cases Nat.eq_zero_or_pos m with
      | inl hm0 =>
          subst hm0
          show sliceLC s (k * ps) (if k < n - 1 then (k + 1) * ps else s.length) ++ [].flatten
            = sliceLC s (k * ps) s.length
          rw [if_neg (by omega)]
          simp
      | inr hmpos =>
          show sliceLC s (k * ps) (if k < n - 1 then (k + 1) * ps else s.length) ++
              ((List.range' (k + 1) m).map _).flatten = sliceLC s (k * ps) s.length
          rw [if_pos (by omega), ih (k + 1) (by omega) hmpos]
          have hk1n : k + 1 ≤ n := by omega
          exact sliceLC_append s (k * ps) ((k + 1) * ps) s.length
            (Nat.mul_le_mul_right ps (by omega))
            (le_trans (Nat.mul_le_mul_right ps hk1n) hle)
            (le_refl _)

/-- C4: the parts returned by `split_transcript_by_parts` concatenate back to
the input exactly, for every requested part count `k ≥ 1` (the parts are the
contiguous, non-overlapping slices `text[i*part_size:(i+1)*part_size]` with the
last part extending to the end). -/
theorem C4_segmenter_round_trip (s : List Char) (k : Int) (_hk : 1 ≤ k) :
    (split_transcript_by_parts s k).flatten = s := by
  simp only [split_transcript_by_parts]
  have hnn : 1 ≤ (max 1 (min k (s.length : Int))).toNat := by omega
  have hmul : (max 1 (min k (s.length : Int))).toNat *
      (s.length / (max 1 (min k (s.length : Int))).toNat) ≤ s.length := by
    rw [Nat.mul_comm]
    exact Nat.div_mul_le_self _ _
  rw [List.range_eq_range']
  rw [join_slices s _ _ hmul _ 0 (by omega) (by omega)]
  unfold sliceLC
  rw [Nat.zero_mul, List.drop_zero, List.take_length]

/-- Witness for C4 at a concrete input. -/
theorem C4_segmenter_round_trip_witness :
    (split_transcript_by_parts "abcde".data 2).flatten = "abcde".data :=
  C4_segmenter_round_trip "abcde".data 2 (by decide)

theorem length_sliceLC (s : List Char) (a b : Nat) :
    (sliceLC s a b).length = min b s.length - a := by
  unfold sliceLC
  rw [List.length_drop, List.length_take]

/-- C8: `split_transcript_by_parts` on the empty string returns exactly one
empty part for every integer `k`; on a non-empty string it returns between 1
and `len(s)` parts; and when additionally `k ≤ len(s)` no returned part is
empty. -/
theorem C8_segmenter_clamping :
    (∀ k : Int, split_transcript_by_parts [] k = [[]]) ∧
    (∀ (s : List Char) (k : Int), 1 ≤ s.length →
        1 ≤ (split_transcript_by_parts s k).length ∧
        (split_transcript_by_parts s k).length ≤ s.length) ∧
    (∀ (s : List Char) (k : Int), 1 ≤ s.length → k ≤ (s.length : Int) →
        ∀ p ∈ split_transcript_by_parts s k, p ≠ []) := by
  refine ⟨?_, ?_, ?_⟩
  · intro k
    simp only [split_transcript_by_parts]
    have h1 : (max 1 (min k ((List.length ([] : List Char)) : Int))).toNat = 1 := by
      simp only [List.length_nil, Nat.cast_zero]
      omega
    rw [h1]
    rfl
  · intro s k hs
    simp only [split_transcript_by_parts]
    rw [List.length_map, List.length_range]
    omega
  · intro s k hs hk p hp
    simp only [split_transcript_by_parts] at hp
    obtain ⟨i, hi, rfl⟩ := List.mem_map.mp hp
    rw [List.mem_range] at hi
    set nn := (max 1 (min k (s.length : Int))).toNat with hnn
    have h1 : 1 ≤ nn := by omega
    have h2 : nn ≤ s.length := by omega
    have hps : 1 ≤ s.length / nn := (Nat.one_le_div_iff (by omega)).mpr h2
    have hmul : nn * (s.length / nn) ≤ s.length := by
      rw [Nat.mul_comm]
      exact Nat.div_mul_le_self _ _
    intro hnil
    have hlen := congrArg List.length hnil
    rw [length_sliceLC] at hlen
    simp only [List.length_nil] at hlen
    by_cases hcase : i < nn - 1
    · rw [if_pos hcase] at hlen
      have hb : (i + 1) * (s.length / nn) ≤ s.length :=
        le_trans (Nat.mul_le_mul_right _ (by omega)) hmul
      have : min ((i + 1) * (s.length / nn)) s.length = (i + 1) * (s.length / nn) := by omega
      rw [this] at hlen
      have : i * (s.length / nn) + (s.length / nn) = (i + 1) * (s.length / nn) := by ring
      omega
    · rw [if_neg hcase] at hlen
      have hilast : i = nn - 1 := by omega
      have : i * (s.length / nn) + (s.length / nn) ≤ s.length := by
        have : (i + 1) * (s.length / nn) ≤ nn * (s.length / nn) :=
          Nat.mul_le_mul_right _ (by omega)
        nlinarith
      omega

/-- Witness for C8 at concrete inputs. -/
theorem C8_segmenter_clamping_witness :
    split_transcript_by_parts [] 7 = [[]] ∧
    (1 ≤ (split_transcript_by_parts "abc".data 2).length ∧
      (split_transcript_by_parts "abc".data 2).length ≤ "abc".data.length) ∧
    (∀ p ∈ split_transcript_by_parts "abc".data 2, p ≠ []) :=
  ⟨C8_segmenter_clamping.1 7,
   C8_segmenter_clamping.2.1 "abc".data 2 (by decide),
   C8_segmenter_clamping.2.2 "abc".data 2 (by decide) (by decide)⟩

theorem chunkLoop_of_first_failure (i : Nat) :
    ∀ (outcomes : List (Option (List (String × Json)) × Option String))
      (acc : List (List (String × Json))) (r : Option String),
      outcomes.get? i = some (none, r) →
      (∀ j < i, ∃ d e, outcomes.get? j = some (some d, e) ∧ d.isEmpty = false) →
      chunkLoop outcomes acc = ([], some r) := by
  induction i with
  | zero =>
      intro outcomes acc r hfail _
      cases outcomes with
      | nil => simp at hfail
      | cons head rest =>
          simp only [List.get?] at hfail
          cases hfail
          rfl
  | succ n ih =>
      intro outcomes acc r hfail hprev
      cases outcomes with
      | nil => simp at hfail
      | cons head rest =>
          obtain ⟨d, e, hhead, hd⟩ := hprev 0 (Nat.succ_pos n)
          simp only [List.get?] at hhead
          cases hhead
          show chunkLoop ((some d, e) :: rest) acc = ([], some r)
          rw [chunkLoop, hd]
          simp only [Bool.not_false, if_pos]
          exact ih rest (acc ++ [d]) r hfail
            (fun j hj => hprev (j + 1) (Nat.succ_lt_succ hj))

/-- C5: if the chunk at index `i` fails (its `data_json` is `None`, carrying
reason `r`) and every earlier chunk succeeded with a truthy result, then the
driver ends with no accumulated results, reports exactly that chunk's reason,
and the merge (and hence the PDF rendering it feeds) is never invoked. -/
theorem C5_failure_short_circuit
    (outcomes : List (Option (List (String × Json)) × Option String))
    (i : Nat) (r : String)
    (hfail : outcomes.get? i = some (none, some r))
    (hprev : ∀ j < i, ∃ d e, outcomes.get? j = some (some d, e) ∧ d.isEmpty = false) :
    (runPipeline outcomes).1 = [] ∧
    (runPipeline outcomes).2.1 = some (some r) ∧
    (runPipeline outcomes).2.2 = none := by
  have h := chunkLoop_of_first_failure i outcomes [] (some r) hfail hprev
  unfold runPipeline
  rw [h]
  exact ⟨rfl, rfl, rfl⟩

/-- Witness for C5: part 2 of 3 fails with a parse error; the pipeline ends
empty, reports that reason, and merges nothing. -/
theorem C5_failure_short_circuit_witness :
    (runPipeline
        [(some [("main_subject", Json.str "a")], none),
         (none, some "JSON PARSE ERROR: Expecting value"),
         (some [("main_subject", Json.str "b")], none)]).1 = [] ∧
    (runPipeline
        [(some [("main_subject", Json.str "a")], none),
         (none, some "JSON PARSE ERROR: Expecting value"),
         (some [("main_subject", Json.str "b")], none)]).2.1 =
      some (some "JSON PARSE ERROR: Expecting value") ∧
    (runPipeline
        [(some [("main_subject", Json.str "a")], none),
         (none, some "JSON PARSE ERROR: Expecting value"),
         (some [("main_subject", Json.str "b")], none)]).2.2 = none :=
  C5_failure_short_circuit _ 1 "JSON PARSE ERROR: Expecting value" rfl
    (by
      intro j hj
      have hj0 : j = 0 := by omega
      subst hj0
      exact ⟨[("main_subject", Json.str "a")], none, rfl, rfl⟩)

theorem parse_error_reason_distinct (e : String) :
    ("JSON PARSE ERROR: " ++ e) ≠ "Could not extract JSON from response." := by
  apply String.ne_of_data_ne
  intro h
  have h2 : (some 'J' : Option Char) = some 'C' := congrArg List.head? h
  exact absurd h2 (by decide)

/-- C6: `run_analysis_and_summarize` always returns exactly one of a result or
an error reason, never both and never neither (every failure path, including a
raised provider exception, becomes an explicit `(None, reason)` pair); a
response with no brace-delimited candidate is reported as
`"Could not extract JSON from response."` while a candidate that fails to
parse is reported as `"JSON PARSE ERROR: ..."`, and these reasons are always
distinguishable. -/
theorem C6_output_contract (api_key : String) (provider : ProviderResult)
    (loads : String → Except String (List (String × Json))) :
    (((run_analysis_and_summarize api_key provider loads).1 ≠ none ∧
        (run_analysis_and_summarize api_key provider loads).2 = none) ∨
      ((run_analysis_and_summarize api_key provider loads).1 = none ∧
        (run_analysis_and_summarize api_key provider loads).2 ≠ none)) ∧
    (∀ t : String, api_key ≠ "" → provider = .returned (some t) → t ≠ "" →
      (extract_clean_json t.data = none →
        (run_analysis_and_summarize api_key provider loads).2 =
          some "Could not extract JSON from response.") ∧
      (∀ (c : List Char) (e : String), extract_clean_json t.data = some c →
        loads (String.mk c) = .error e →
        (run_analysis_and_summarize api_key provider loads).2 =
          some ("JSON PARSE ERROR: " ++ e))) ∧
    (∀ e : String,
      ("JSON PARSE ERROR: " ++ e) ≠ "Could not extract JSON from response.") := by
  refine ⟨?_, ?_, parse_error_reason_distinct⟩
  · by_cases hkey : api_key = ""
    · exact Or.inr (by simp [run_analysis_and_summarize, hkey])
    · cases provider with
      | raised e => exact Or.inr (by simp [run_analysis_and_summarize, hkey])
      | returned rt =>
          cases rt with
          | none => exact Or.inr (by simp [run_analysis_and_summarize, hkey])
          | some t =>
              by_cases ht : t = ""
              · exact Or.inr (by simp [run_analysis_and_summarize, hkey, ht])
              · cases hec : extract_clean_json t.data with
                | none =>
                    exact Or.inr (by simp [run_analysis_and_summarize, hkey, ht, hec])
                | some c =>
                    cases hld : loads (String.mk c) with
                    | error e =>
                        exact Or.inr (by simp [run_analysis_and_summarize, hkey, ht, hec, hld])
                    | ok obj =>
                        exact Or.inl (by simp [run_analysis_and_summarize, hkey, ht, hec, hld])
  · intro t hkey hprov ht
    subst hprov
    constructor
    · intro hec
      simp [run_analysis_and_summarize, hkey, ht, hec]
    · intro c e hec hld
      simp [run_analysis_and_summarize, hkey, ht, hec, hld]

/-- Witness for C6, exercising both failure kinds at concrete inputs. -/
theorem C6_output_contract_witness :
    (((run_analysis_and_summarize "key" (.returned (some "no object here"))
          (fun _ => .error "Expecting value")).1 ≠ none ∧
        (run_analysis_and_summarize "key" (.returned (some "no object here"))
          (fun _ => .error "Expecting value")).2 = none) ∨
      ((run_analysis_and_summarize "key" (.returned (some "no object here"))
          (fun _ => .error "Expecting value")).1 = none ∧
        (run_analysis_and_summarize "key" (.returned (some "no object here"))
          (fun _ => .error "Expecting value")).2 ≠ none)) ∧
    (run_analysis_and_summarize "key" (.returned (some "no object here"))
        (fun _ => .error "Expecting value")).2 =
      some "Could not extract JSON from response." ∧
    (run_analysis_and_summarize "key" (.returned (some "\x7bbad\x7d"))
        (fun _ => .error "Expecting value")).2 =
      some ("JSON PARSE ERROR: " ++ "Expecting value") ∧
    ("JSON PARSE ERROR: " ++ "Expecting value") ≠
      "Could not extract JSON from response." :=
  ⟨(C6_output_contract "key" (.returned (some "no object here"))
      (fun _ => .error "Expecting value")).1,
   ((C6_output_contract "key" (.returned (some "no object here"))
      (fun _ => .error "Expecting value")).2.1 "no object here" (by decide) rfl
      (by decide)).1 (by rfl),
   ((C6_output_contract "key" (.returned (some "\x7bbad\x7d"))
      (fun _ => .error "Expecting value")).2.1 "\x7bbad\x7d" (by decide) rfl
      (by decide)).2 "\x7bbad\x7d".data "Expecting value" (by rfl) rfl,
   (C6_output_contract "key" (.returned (some "x"))
      (fun _ => .error "x")).2.2 "Expecting value"⟩

/-! ### C1: the normalizer does not backfill missing keys -/

/-- The value bound to canonical key `k'` after normalisation: the value of
the last input entry whose key canonicalises to `k'` (used to state the
amended C1). -/
def lastValueFor (k' : String) : List (String × Json) → Option Json
  | [] => none
  | (k, v) :: rest =>
      match lastValueFor k' rest with
      | some w => some w
      | none => if snakeKeyStr k = k' then some v else none

theorem pyDictGet_pyDictSet (d : List (String × Json)) (k k' : String) (v : Json) :
    pyDictGet (pyDictSet d k v) k' = if k = k' then some v else pyDictGet d k' := by
  induction d with
  | nil => simp [pyDictSet, pyDictGet]
  | cons head rest ih =>
      obtain ⟨hk, hv⟩ := head
      by_cases h1 : hk = k
      · subst h1
        by_cases h2 : hk = k'
        · simp [pyDictSet, pyDictGet, h2]
        · simp [pyDictSet, pyDictGet, h2]
      · by_cases h2 : hk = k'
        · subst h2
          simp [pyDictSet, pyDictGet, h1, show k ≠ hk from fun h => h1 h.symm]
        · simp [pyDictSet, pyDictGet, h1, h2, ih]

theorem normalizeData_foldl_lookup (k' : String) :
    ∀ (items : List (String × Json)) (acc : List (String × Json)),
      pyDictGet (items.foldl (fun a p => pyDictSet a (snakeKeyStr p.1) p.2) acc) k' =
        match lastValueFor k' items with
        | some w => some w
        | none => pyDictGet acc k' := by
  intro items
  induction items with
  | nil => intro acc; rfl
  | cons head rest ih =>
      intro acc
      obtain ⟨hk, hv⟩ := head
      rw [List.foldl_cons, ih, lastValueFor]
      cases lastValueFor k' rest with
      | some w => rfl
      | none =>
          simp only []
          rw [pyDictGet_pyDictSet]
          by_cases h : snakeKeyStr hk = k'
          · rw [if_pos h, if_pos h]
          · rw [if_neg h, if_neg h]

/-- Amended C1: the normalisation step of `run_analysis_and_summarize` only
canonicalises keys — the normalised object binds a key `k'` exactly when some
input key canonicalises to `k'` (the last such entry's value winning), with no
backfill of the nine section keys, no defaulting of `main_subject`, and no
wrapping of non-sequence values; on the success path the returned result is
exactly `normalizeData` of the parsed object, so the empty object `\x7b\x7d`
normalises to the empty object. -/
theorem C1_normalizer_no_backfill :
    (∀ (items : List (String × Json)) (k' : String),
      pyDictGet (normalizeData items) k' = lastValueFor k' items) ∧
    (∀ (api_key t : String)
        (loads : String → Except String (List (String × Json)))
        (c : List Char) (obj : List (String × Json)),
      api_key ≠ "" → t ≠ "" → extract_clean_json t.data = some c →
      loads (String.mk c) = .ok obj →
      (run_analysis_and_summarize api_key (.returned (some t)) loads).1 =
        some (normalizeData obj)) := by
  constructor
  · intro items k'
    unfold normalizeData
    rw [normalizeData_foldl_lookup]
    cases lastValueFor k' items with
    | some w => rfl
    | none => rfl
  · intro api_key t loads c obj hkey ht hec hld
    simp [run_analysis_and_summarize, hkey, ht, hec, hld]

/-- Witness for C1 (amended) at concrete inputs. -/
theorem C1_normalizer_no_backfill_witness :
    pyDictGet (normalizeData [("topicBreakdown", Json.arr [])]) "topic_breakdown" =
      lastValueFor "topic_breakdown" [("topicBreakdown", Json.arr [])] ∧
    (run_analysis_and_summarize "key" (.returned (some "\x7b\x7d"))
        (fun s => if s = "\x7b\x7d" then .ok [] else .error "Expecting value")).1 =
      some (normalizeData []) :=
  ⟨C1_normalizer_no_backfill.1 [("topicBreakdown", Json.arr [])] "topic_breakdown",
   C1_normalizer_no_backfill.2 "key" "\x7b\x7d"
     (fun s => if s = "\x7b\x7d" then .ok [] else .error "Expecting value")
     "\x7b\x7d".data [] (by decide) (by decide) (by rfl) (by rfl)⟩

/-- Counterexample for C1 as stated: the response text `\x7b\x7d` yields the
candidate `\x7b\x7d`, `json.loads` parses it to the empty object, and the
normalised result contains neither the section key `key_points` nor
`main_subject` — no key is backfilled. -/
theorem C1_normalizer_no_backfill_counterexample :
    extract_clean_json "\x7b\x7d".data = some "\x7b\x7d".data ∧
    normalizeData [] = [] ∧
    pyDictGet (normalizeData []) "key_points" = none ∧
    pyDictGet (normalizeData []) "main_subject" = none :=
  ⟨rfl, rfl, rfl, rfl⟩

/-! ### Shared dictionary lemmas for the merger -/

theorem pyDictGet_eq_none_of_not_mem (d : List (String × Json)) (k : String)
    (h : k ∉ d.map Prod.fst) : pyDictGet d k = none := by
  induction d with
  | nil => rfl
  | cons p rest ih =>
      obtain ⟨k', v'⟩ := p
      rw [pyDictGet]
      rw [List.map_cons, List.mem_cons] at h
      push_neg at h
      rw [if_neg (fun hc => h.1 hc.symm), ih h.2]

theorem map_fst_pyDictSet_mem (d : List (String × Json)) (k : String) (v : Json)
    (h : k ∈ d.map Prod.fst) : (pyDictSet d k v).map Prod.fst = d.map Prod.fst := by
  induction d with
  | nil => simp at h
  | cons p rest ih =>
      obtain ⟨k', v'⟩ := p
      rw [List.map_cons, List.mem_cons] at h
      rw [pyDictSet]
      by_cases h1 : k' = k
      · rw [if_pos h1]
        simp
      · rw [if_neg h1, List.map_cons, List.map_cons, ih]
        rcases h with h | h
        · exact absurd h.symm h1
        · exact h

theorem mem_map_fst_pyDictSet (d : List (String × Json)) (k x : String) (v : Json) :
    x ∈ (pyDictSet d k v).map Prod.fst ↔ x = k ∨ x ∈ d.map Prod.fst := by
  induction d with
  | nil => simp [pyDictSet]
  | cons p rest ih =>
      obtain ⟨k', v'⟩ := p
      rw [pyDictSet]
      by_cases h1 : k' = k
      · rw [if_pos h1]
        subst h1
        simp only [List.map_cons, List.mem_cons]
        tauto
      · rw [if_neg h1]
        simp only [List.map_cons, List.mem_cons, ih]
        tauto

theorem nodup_map_fst_pyDictSet (d : List (String × Json)) (k : String) (v : Json)
    (h : (d.map Prod.fst).Nodup) : ((pyDictSet d k v).map Prod.fst).Nodup := by
  induction d with
  | nil => simp [pyDictSet]
  | cons p rest ih =>
      obtain ⟨k', v'⟩ := p
      rw [List.map_cons, List.nodup_cons] at h
      rw [pyDictSet]
      by_cases h1 : k' = k
      · rw [if_pos h1]
        rw [List.map_cons, List.nodup_cons]
        exact h
      · rw [if_neg h1, List.map_cons, List.nodup_cons]
        refine ⟨?_, ih h.2⟩
        intro hmem
        rcases (mem_map_fst_pyDictSet rest k k' v).mp hmem with heq | hin
        · exact h1 heq
        · exact h.1 hin

theorem ms_not_mem_LIST_KEYS : "main_subject" ∉ LIST_KEYS := by decide

theorem LIST_KEYS_nodup : LIST_KEYS.Nodup := by decide

theorem combinedInit_map_fst : combinedInit.map Prod.fst = "main_subject" :: LIST_KEYS := rfl

theorem combinedInit_get_ms : pyDictGet combinedInit "main_subject" = some (.str "") := rfl

theorem combinedInit_get_section (k : String) (hk : k ∈ LIST_KEYS) :
    pyDictGet combinedInit k = some (.arr []) := by
  fin_cases hk <;> rfl

/-- Any single `mergeItem` step writes (at most) the key of its item, so every
other key's binding is untouched. -/
theorem mergeItem_get_ne (c : List (String × Json)) (kv : String × Json) (k : String)
    (hne : kv.1 ≠ k) : pyDictGet (mergeItem c kv) k = pyDictGet c k := by
  obtain ⟨k', v⟩ := kv
  simp only at hne
  by_cases h1 : k' = "main_subject"
  · subst h1
    by_cases h2 : (!pyTruthyOpt (pyDictGet c "main_subject") && pyTruthy v) = true
    · simp [mergeItem, h2, pyDictGet_pyDictSet, hne]
    · simp [mergeItem, h2]
  · cases v with
    | arr l =>
        by_cases hmem : k' ∈ LIST_KEYS
        · cases hget : pyDictGet c k' with
          | none => simp [mergeItem, h1, hmem, hget]
          | some w =>
              cases w with
              | arr old => simp [mergeItem, h1, hmem, hget, pyDictGet_pyDictSet, hne]
              | null => simp [mergeItem, h1, hmem, hget]
              | bool b => simp [mergeItem, h1, hmem, hget]
              | int n => simp [mergeItem, h1, hmem, hget]
              | str s => simp [mergeItem, h1, hmem, hget]
              | obj o => simp [mergeItem, h1, hmem, hget]
        · simp [mergeItem, h1, hmem]
    | null => simp [mergeItem, h1]
    | bool b => simp [mergeItem, h1]
    | int n => simp [mergeItem, h1]
    | str s => simp [mergeItem, h1]
    | obj o => simp [mergeItem, h1]

theorem foldl_mergeItem_subject :
    ∀ (items : List (String × Json)) (c : List (String × Json)) (s0 : String),
      pyDictGet c "main_subject" = some (.str s0) →
      pyDictGet (items.foldl mergeItem c) "main_subject" =
        some (.str (itemsSubject s0 items)) := by
  intro items
  induction items with
  | nil => intro c s0 h; exact h
  | cons p rest ih =>
      intro c s0 h
      obtain ⟨k', v⟩ := p
      rw [List.foldl_cons, itemsSubject]
      by_cases h1 : k' = "main_subject"
      · subst h1
        by_cases h2 : s0 = ""
        · by_cases h3 : pyTruthy v = true
          · have hm : mergeItem c ("main_subject", v) =
                pyDictSet c "main_subject" (.str (pyStrip (pyStr v))) := by
              subst h2
              have hfalse : pyTruthy (Json.str "") = false := rfl
              simp [mergeItem, h, pyTruthyOpt, hfalse, h3]
            rw [hm, if_pos ⟨rfl, h2, h3⟩]
            exact ih _ _ (by rw [pyDictGet_pyDictSet, if_pos rfl])
          · have hm : mergeItem c ("main_subject", v) = c := by
              simp [mergeItem, h3]
            rw [hm, if_neg (by simp [h3])]
            exact ih _ _ h
        · have hm : mergeItem c ("main_subject", v) = c := by
            have htrue : pyTruthy (Json.str s0) = true := by
              simp [pyTruthy, h2]
            simp [mergeItem, h, pyTruthyOpt, htrue]
          rw [hm, if_neg (by simp [h2])]
          exact ih _ _ h
      · rw [if_neg (by simp [h1])]
        exact ih _ _ (by rw [mergeItem_get_ne c (k', v) "main_subject" h1]; exact h)

theorem foldl_mergeItem_section (k : String) (hk : k ∈ LIST_KEYS) :
    ∀ (items : List (String × Json)) (c : List (String × Json)) (l0 : List Json),
      pyDictGet c k = some (.arr l0) →
      pyDictGet (items.foldl mergeItem c) k =
        some (.arr (l0 ++ itemsConcatKey k items)) := by
  have hkms : k ≠ "main_subject" := fun hcontra => ms_not_mem_LIST_KEYS (hcontra ▸ hk)
  intro items
  induction items with
  | nil => intro c l0 h; simpa [itemsConcatKey] using h
  | cons p rest ih =>
      intro c l0 h
      obtain ⟨k', v⟩ := p
      rw [List.foldl_cons, itemsConcatKey]
      by_cases h1 : k' = k
      · subst h1
        cases v with
        | arr l =>
            have hm : mergeItem c (k', .arr l) = pyDictSet c k' (.arr (l0 ++ l)) := by
              simp [mergeItem, hkms, hk, h]
            rw [hm, ih _ (l0 ++ l) (by rw [pyDictGet_pyDictSet, if_pos rfl])]
            simp [arrElems, List.append_assoc]
        | null =>
            have hm : mergeItem c (k', .null) = c := by
              simp [mergeItem, hkms]
            rw [hm]
            simpa using ih c l0 h
        | bool b =>
            have hm : mergeItem c (k', .bool b) = c := by
              simp [mergeItem, hkms]
            rw [hm]
            simpa using ih c l0 h
        | int n =>
            have hm : mergeItem c (k', .int n) = c := by
              simp [mergeItem, hkms]
            rw [hm]
            simpa using ih c l0 h
        | str s =>
            have hm : mergeItem c (k', .str s) = c := by
              simp [mergeItem, hkms]
            rw [hm]
            simpa using ih c l0 h
        | obj o =>
            have hm : mergeItem c (k', .obj o) = c := by
              simp [mergeItem, hkms]
            rw [hm]
            simpa using ih c l0 h
      · rw [if_neg h1]
        simp only [List.nil_append]
        exact ih (mergeItem c (k', v)) l0
          (by rw [mergeItem_get_ne c (k', v) k h1]; exact h)

theorem pyDictGet_some_mem (d : List (String × Json)) (k : String) (v : Json)
    (h : pyDictGet d k = some v) : k ∈ d.map Prod.fst := by
  induction d with
  | nil => simp [pyDictGet] at h
  | cons p rest ih =>
      obtain ⟨k', v'⟩ := p
      rw [pyDictGet] at h
      by_cases h1 : k' = k
      · simp [h1]
      · rw [if_neg h1] at h
        simp [ih h]

theorem mergeItem_map_fst (c : List (String × Json)) (kv : String × Json)
    (hsub : "main_subject" ∈ c.map Prod.fst)
    (hsec : ∀ x ∈ LIST_KEYS, x ∈ c.map Prod.fst) :
    (mergeItem c kv).map Prod.fst = c.map Prod.fst := by
  obtain ⟨k', v⟩ := kv
  by_cases h1 : k' = "main_subject"
  · subst h1
    by_cases h2 : (!pyTruthyOpt (pyDictGet c "main_subject") && pyTruthy v) = true
    · have := map_fst_pyDictSet_mem c "main_subject"
        (Json.str (pyStrip (pyStr v))) hsub
      simpa [mergeItem, h2] using this
    · simp [mergeItem, h2]
  · cases v with
    | arr l =>
        by_cases hmem : k' ∈ LIST_KEYS
        · cases hget : pyDictGet c k' with
          | none => simp [mergeItem, h1, hmem, hget]
          | some w =>
              cases w with
              | arr old =>
                  have := map_fst_pyDictSet_mem c k' (Json.arr (old ++ l)) (hsec _ hmem)
                  simpa [mergeItem, h1, hmem, hget] using this
              | null => simp [mergeItem, h1, hmem, hget]
              | bool b => simp [mergeItem, h1, hmem, hget]
              | int n => simp [mergeItem, h1, hmem, hget]
              | str s => simp [mergeItem, h1, hmem, hget]
              | obj o => simp [mergeItem, h1, hmem, hget]
        · simp [mergeItem, h1, hmem]
    | null => simp [mergeItem, h1]
    | bool b => simp [mergeItem, h1]
    | int n => simp [mergeItem, h1]
    | str s => simp [mergeItem, h1]
    | obj o => simp [mergeItem, h1]

/-- The whole accumulation fold preserves the combined dict's shape: key list
unchanged, `main_subject` a string, every section key a list. -/
theorem foldl_mergeItem_inv :
    ∀ (items : List (String × Json)) (c : List (String × Json)),
      c.map Prod.fst = "main_subject" :: LIST_KEYS →
      (∃ s, pyDictGet c "main_subject" = some (.str s)) →
      (∀ k ∈ LIST_KEYS, ∃ l, pyDictGet c k = some (.arr l)) →
      (items.foldl mergeItem c).map Prod.fst = "main_subject" :: LIST_KEYS ∧
      (∃ s, pyDictGet (items.foldl mergeItem c) "main_subject" = some (.str s)) ∧
      (∀ k ∈ LIST_KEYS, ∃ l, pyDictGet (items.foldl mergeItem c) k = some (.arr l)) := by
  intro items
  induction items with
  | nil => intro c h1 h2 h3; exact ⟨h1, h2, h3⟩
  | cons p rest ih =>
      intro c h1 h2 h3
      rw [List.foldl_cons]
      refine ih (mergeItem c p) ?_ ?_ ?_
      · rw [mergeItem_map_fst c p (by rw [h1]; simp) (fun x hx => by rw [h1]; simp [hx]), h1]
      · obtain ⟨s, hs⟩ := h2
        have := foldl_mergeItem_subject [p] c s hs
        exact ⟨itemsSubject s [p], this⟩
      · intro k hk
        obtain ⟨l, hl⟩ := h3 k hk
        have := foldl_mergeItem_section k hk [p] c l hl
        exact ⟨l ++ itemsConcatKey k [p], this⟩

theorem dedupStep_get_ne (c : List (String × Json)) (k0 k : String) (h : k0 ≠ k) :
    pyDictGet (dedupStep c k0) k = pyDictGet c k := by
  unfold dedupStep
  split
  · split
    · rw [pyDictGet_pyDictSet, if_neg h]
    · rfl
  · rfl

theorem dedupStep_get_self (c : List (String × Json)) (k : String) (l : List Json)
    (h : pyDictGet c k = some (.arr l)) :
    pyDictGet (dedupStep c k) k = some (.arr (dedupFirst l)) := by
  by_cases he : l.isEmpty
  · have hnil : l = [] := List.isEmpty_iff.mp he
    subst hnil
    simp [dedupStep, h, dedupFirst, dedupFirstAux]
  · have hstep : dedupStep c k = pyDictSet c k (.arr (dedupFirst l)) := by
      simp [dedupStep, h, he]
    rw [hstep, pyDictGet_pyDictSet, if_pos rfl]

theorem foldl_dedupStep_not_mem :
    ∀ (ks : List String) (c : List (String × Json)) (k : String), k ∉ ks →
      pyDictGet (ks.foldl dedupStep c) k = pyDictGet c k := by
  intro ks
  induction ks with
  | nil => intro c k _; rfl
  | cons k0 rest ih =>
      intro c k hk
      rw [List.mem_cons] at hk
      push_neg at hk
      rw [List.foldl_cons, ih _ _ hk.2, dedupStep_get_ne c k0 k (fun hc => hk.1 hc.symm)]

theorem foldl_dedupStep_mem :
    ∀ (ks : List String), ks.Nodup →
      ∀ (c : List (String × Json)) (k : String) (l : List Json), k ∈ ks →
        pyDictGet c k = some (.arr l) →
        pyDictGet (ks.foldl dedupStep c) k = some (.arr (dedupFirst l)) := by
  intro ks
  induction ks with
  | nil => intro _ c k l hk; simp at hk
  | cons k0 rest ih =>
      intro hnd c k l hk h
      rw [List.nodup_cons] at hnd
      rw [List.foldl_cons]
      rw [List.mem_cons] at hk
      rcases hk with hk | hk
      · subst hk
        rw [foldl_dedupStep_not_mem rest _ k hnd.1, dedupStep_get_self c k l h]
      · have hne : k0 ≠ k := fun hc => hnd.1 (hc ▸ hk)
        exact ih hnd.2 _ k l hk (by rw [dedupStep_get_ne c k0 k hne]; exact h)

theorem dedupStep_map_fst (c : List (String × Json)) (k0 : String) :
    (dedupStep c k0).map Prod.fst = c.map Prod.fst := by
  unfold dedupStep
  split
  · next l hget =>
      split
      · exact map_fst_pyDictSet_mem _ _ _ (pyDictGet_some_mem _ _ _ hget)
      · rfl
  · rfl

theorem foldl_dedupStep_map_fst :
    ∀ (ks : List String) (c : List (String × Json)),
      (ks.foldl dedupStep c).map Prod.fst = c.map Prod.fst := by
  intro ks
  induction ks with
  | nil => intro c; rfl
  | cons k0 rest ih => intro c; rw [List.foldl_cons, ih, dedupStep_map_fst]

theorem foldl_chunks_inv :
    ∀ (results : List (List (String × Json))) (c : List (String × Json)),
      c.map Prod.fst = "main_subject" :: LIST_KEYS →
      (∃ s, pyDictGet c "main_subject" = some (.str s)) →
      (∀ k ∈ LIST_KEYS, ∃ l, pyDictGet c k = some (.arr l)) →
      (results.foldl (fun combined res => (normalizeChunk res).foldl mergeItem combined)
          c).map Prod.fst = "main_subject" :: LIST_KEYS ∧
      (∃ s, pyDictGet
          (results.foldl (fun combined res => (normalizeChunk res).foldl mergeItem combined) c)
          "main_subject" = some (.str s)) ∧
      (∀ k ∈ LIST_KEYS, ∃ l, pyDictGet
          (results.foldl (fun combined res => (normalizeChunk res).foldl mergeItem combined) c)
          k = some (.arr l)) := by
  intro results
  induction results with
  | nil => intro c h1 h2 h3; exact ⟨h1, h2, h3⟩
  | cons res rest ih =>
      intro c h1 h2 h3
      rw [List.foldl_cons]
      obtain ⟨g1, g2, g3⟩ := foldl_mergeItem_inv (normalizeChunk res) c h1 h2 h3
      exact ih _ g1 g2 g3

theorem mergeChunks_inv (results : List (List (String × Json))) :
    (mergeChunks results).map Prod.fst = "main_subject" :: LIST_KEYS ∧
    (∃ s, pyDictGet (mergeChunks results) "main_subject" = some (.str s)) ∧
    (∀ k ∈ LIST_KEYS, ∃ l, pyDictGet (mergeChunks results) k = some (.arr l)) :=
  foldl_chunks_inv results combinedInit combinedInit_map_fst
    ⟨"", combinedInit_get_ms⟩ (fun k hk => ⟨[], combinedInit_get_section k hk⟩)

/-- C10: for every input list of chunk dicts, the merged dict has exactly the
ten expected keys in fixed order, `main_subject` is always a string, every
section key is bound to a list, the empty input yields the empty-initialised
result, and a non-list value under a section key is discarded. -/
theorem C10_merger_shape_invariant (results : List (List (String × Json))) :
    (merge_all_json_outputs results).map Prod.fst = "main_subject" :: LIST_KEYS ∧
    (∃ s, pyDictGet (merge_all_json_outputs results) "main_subject" = some (.str s)) ∧
    (∀ k ∈ LIST_KEYS, ∃ l, pyDictGet (merge_all_json_outputs results) k = some (.arr l)) ∧
    merge_all_json_outputs [] = combinedInit ∧
    (∀ (k : String) (v : Json), k ∈ LIST_KEYS → (∀ l, v ≠ .arr l) →
      pyDictGet (merge_all_json_outputs [[(k, v)]]) k = some (.arr [])) := by
  obtain ⟨h1, h2, h3⟩ := mergeChunks_inv results
  refine ⟨?_, ?_, ?_, rfl, ?_⟩
  · unfold merge_all_json_outputs dedupPass
    rw [foldl_dedupStep_map_fst, h1]
  · obtain ⟨s, hs⟩ := h2
    refine ⟨s, ?_⟩
    unfold merge_all_json_outputs dedupPass
    rw [foldl_dedupStep_not_mem _ _ _ ms_not_mem_LIST_KEYS, hs]
  · intro k hk
    obtain ⟨l, hl⟩ := h3 k hk
    refine ⟨dedupFirst l, ?_⟩
    unfold merge_all_json_outputs dedupPass
    exact foldl_dedupStep_mem LIST_KEYS LIST_KEYS_nodup _ k l hk hl
  · intro k v hk hv
    have hknd : labelToKey k = k := by fin_cases hk <;> rfl
    have hkms : k ≠ "main_subject" := fun hc => ms_not_mem_LIST_KEYS (hc ▸ hk)
    have hchunk : normalizeChunk [(k, v)] = [(k, v)] := by
      unfold normalizeChunk
      rw [List.foldl_cons, List.foldl_nil]
      show pyDictSet [] (labelToKey k) v = [(k, v)]
      rw [hknd]
      rfl
    have hitem : mergeItem combinedInit (k, v) = combinedInit := by
      unfold mergeItem
      rw [if_neg hkms]
      cases v with
      | arr l => exact absurd rfl (hv l)
      | null => rfl
      | bool b => rfl
      | int n => rfl
      | str s => rfl
      | obj o => rfl
    show pyDictGet (dedupPass (mergeChunks [[(k, v)]])) k = some (.arr [])
    have hmc : mergeChunks [[(k, v)]] = combinedInit := by
      unfold mergeChunks
      rw [List.foldl_cons, List.foldl_nil, hchunk, List.foldl_cons, List.foldl_nil, hitem]
    rw [hmc]
    unfold dedupPass
    rw [foldl_dedupStep_mem LIST_KEYS LIST_KEYS_nodup _ k [] hk
      (combinedInit_get_section k hk)]
    rfl

/-- Witness for C10 at concrete inputs. -/
theorem C10_merger_shape_invariant_witness :
    (merge_all_json_outputs [[("junk", Json.str "x")]]).map Prod.fst =
      "main_subject" :: LIST_KEYS ∧
    pyDictGet (merge_all_json_outputs [[("key_points", Json.str "v")]]) "key_points" =
      some (.arr []) :=
  ⟨(C10_merger_shape_invariant [[("junk", Json.str "x")]]).1,
   (C10_merger_shape_invariant []).2.2.2.2 "key_points" (Json.str "v") (by decide)
     (fun l h => Json.noConfusion h)⟩

/-! ### C7: merged `main_subject` -/

theorem labelToKey_ne_ms (k : String) (h : k ≠ "main_subject") :
    labelToKey k ≠ "main_subject" := by
  unfold labelToKey
  split_ifs <;> first | decide | exact h

theorem normalizeChunk_foldl_get_ms :
    ∀ (res : List (String × Json)) (acc : List (String × Json)),
      (res.map Prod.fst).Nodup →
      pyDictGet (res.foldl (fun a p => pyDictSet a (labelToKey p.1) p.2) acc)
          "main_subject" =
        match pyDictGet res "main_subject" with
        | some v => some v
        | none => pyDictGet acc "main_subject" := by
  intro res
  induction res with
  | nil => intro acc _; rfl
  | cons p rest ih =>
      intro acc hnd
      obtain ⟨k, v⟩ := p
      rw [List.map_cons, List.nodup_cons] at hnd
      rw [List.foldl_cons, ih _ hnd.2]
      by_cases hms : k = "main_subject"
      · subst hms
        rw [pyDictGet_eq_none_of_not_mem rest _ hnd.1]
        show pyDictGet (pyDictSet acc (labelToKey "main_subject") v) "main_subject" = _
        rw [show labelToKey "main_subject" = "main_subject" from rfl,
          pyDictGet_pyDictSet, if_pos rfl]
        rw [pyDictGet, if_pos rfl]
      · have hlk := labelToKey_ne_ms k hms
        rw [pyDictGet, if_neg hms]
        cases hget : pyDictGet rest "main_subject" with
        | some w => rfl
        | none =>
            show pyDictGet (pyDictSet acc (labelToKey k) v) "main_subject" = _
            rw [pyDictGet_pyDictSet, if_neg hlk]

theorem normalizeChunk_get_ms (res : List (String × Json))
    (hnd : (res.map Prod.fst).Nodup) :
    pyDictGet (normalizeChunk res) "main_subject" = pyDictGet res "main_subject" := by
  unfold normalizeChunk
  rw [normalizeChunk_foldl_get_ms res [] hnd]
  cases pyDictGet res "main_subject" with
  | some w => rfl
  | none => rfl

theorem normalizeChunk_keys_nodup (res : List (String × Json)) :
    ((normalizeChunk res).map Prod.fst).Nodup := by
  unfold normalizeChunk
  have aux : ∀ (l : List (String × Json)) (acc : List (String × Json)),
      (acc.map Prod.fst).Nodup →
      ((l.foldl (fun a p => pyDictSet a (labelToKey p.1) p.2) acc).map Prod.fst).Nodup := by
    intro l
    induction l with
    | nil => intro acc h; exact h
    | cons p rest ih =>
        intro acc h
        rw [List.foldl_cons]
        exact ih _ (nodup_map_fst_pyDictSet _ _ _ h)
  exact aux res [] (by simp)

theorem itemsSubject_nodup :
    ∀ (items : List (String × Json)) (s0 : String), ((items.map Prod.fst).Nodup) →
      itemsSubject s0 items =
        match pyDictGet items "main_subject" with
        | some v => if s0 = "" ∧ pyTruthy v then pyStrip (pyStr v) else s0
        | none => s0 := by
  have no_ms : ∀ (items : List (String × Json)) (s0 : String),
      "main_subject" ∉ items.map Prod.fst → itemsSubject s0 items = s0 := by
    intro items
    induction items with
    | nil => intro s0 _; rfl
    | cons p rest ih =>
        intro s0 h
        obtain ⟨k, v⟩ := p
        rw [List.map_cons, List.mem_cons] at h
        push_neg at h
        rw [itemsSubject, if_neg (by simp; intro hc; exact absurd hc.symm h.1)]
        exact ih s0 h.2
  intro items
  induction items with
  | nil => intro s0 _; rfl
  | cons p rest ih =>
      intro s0 hnd
      obtain ⟨k, v⟩ := p
      rw [List.map_cons, List.nodup_cons] at hnd
      rw [itemsSubject]
      by_cases hms : k = "main_subject"
      · subst hms
        rw [pyDictGet, if_pos rfl]
        by_cases hcond : s0 = "" ∧ pyTruthy v
        · rw [if_pos ⟨rfl, hcond.1, hcond.2⟩]
          show itemsSubject (pyStrip (pyStr v)) rest =
            if s0 = "" ∧ pyTruthy v then pyStrip (pyStr v) else s0
          rw [if_pos hcond]
          exact no_ms rest _ hnd.1
        · rw [if_neg (by simp only [not_and] at hcond ⊢; intro _ h2 h3; exact hcond h2 h3)]
          show itemsSubject s0 rest =
            if s0 = "" ∧ pyTruthy v then pyStrip (pyStr v) else s0
          rw [if_neg hcond]
          exact no_ms rest _ hnd.1
      · rw [pyDictGet, if_neg hms, if_neg (by simp [hms])]
        exact ih s0 hnd.2

theorem chunk_fold_subject (res c : List (String × Json)) (s0 : String)
    (hnd : (res.map Prod.fst).Nodup)
    (h : pyDictGet c "main_subject" = some (.str s0)) :
    pyDictGet ((normalizeChunk res).foldl mergeItem c) "main_subject" =
      some (.str (chunkAdopt s0 res)) := by
  rw [foldl_mergeItem_subject _ c s0 h,
    itemsSubject_nodup _ s0 (normalizeChunk_keys_nodup res),
    normalizeChunk_get_ms res hnd]
  rfl

theorem mergeChunks_subject_accum :
    ∀ (results : List (List (String × Json))) (c : List (String × Json)) (s0 : String),
      (∀ res ∈ results, (res.map Prod.fst).Nodup) →
      pyDictGet c "main_subject" = some (.str s0) →
      pyDictGet
          (results.foldl (fun combined res => (normalizeChunk res).foldl mergeItem combined) c)
          "main_subject" = some (.str (subjectAccum s0 results)) := by
  intro results
  induction results with
  | nil => intro c s0 _ h; exact h
  | cons res rest ih =>
      intro c s0 hnd h
      rw [List.foldl_cons, subjectAccum]
      exact ih _ _ (fun r hr => hnd r (by simp [hr]))
        (chunk_fold_subject res c s0 (hnd res (by simp)) h)

theorem chunkAdopt_of_ne (s0 : String) (res : List (String × Json)) (h : s0 ≠ "") :
    chunkAdopt s0 res = s0 := by
  unfold chunkAdopt
  cases pyDictGet res "main_subject" with
  | some v => simp [h]
  | none => rfl

theorem subjectAccum_of_ne :
    ∀ (results : List (List (String × Json))) (s0 : String), s0 ≠ "" →
      subjectAccum s0 results = s0 := by
  intro results
  induction results with
  | nil => intro s0 _; rfl
  | cons res rest ih =>
      intro s0 h
      rw [subjectAccum, chunkAdopt_of_ne s0 res h]
      exact ih s0 h

theorem subjectAccum_eq_firstTrimmed (results : List (List (String × Json))) :
    subjectAccum "" results = firstTrimmedSubject results := by
  induction results with
  | nil => rfl
  | cons res rest ih =>
      rw [subjectAccum, firstTrimmedSubject]
      cases hget : pyDictGet res "main_subject" with
      | none =>
          rw [show chunkAdopt "" res = "" by unfold chunkAdopt; rw [hget]]
          exact ih
      | some v =>
          by_cases htr : pyTruthy v = true
          · by_cases hstrip : pyStrip (pyStr v) = ""
            · rw [show chunkAdopt "" res = "" by
                unfold chunkAdopt; rw [hget]; simp [htr, hstrip]]
              show subjectAccum "" rest =
                if pyTruthy v && pyStrip (pyStr v) ≠ "" then pyStrip (pyStr v)
                else firstTrimmedSubject rest
              rw [if_neg (by simp [hstrip])]
              exact ih
            · rw [show chunkAdopt "" res = pyStrip (pyStr v) by
                unfold chunkAdopt; rw [hget]; simp [htr]]
              show subjectAccum (pyStrip (pyStr v)) rest =
                if pyTruthy v && pyStrip (pyStr v) ≠ "" then pyStrip (pyStr v)
                else firstTrimmedSubject rest
              rw [if_pos (by simp [htr, hstrip])]
              exact subjectAccum_of_ne rest _ hstrip
          · rw [show chunkAdopt "" res = "" by
              unfold chunkAdopt; rw [hget]; simp [htr]]
            show subjectAccum "" rest =
              if pyTruthy v && pyStrip (pyStr v) ≠ "" then pyStrip (pyStr v)
              else firstTrimmedSubject rest
            rw [if_neg (by simp [htr])]
            exact ih

/-- Amended C7: the merged `main_subject` is the trimmed subject of the first
chunk (in chunk order) whose subject is truthy and trims to a non-empty
string; chunks whose subject is empty or whitespace-only are passed over, and
the empty string results when no chunk qualifies. -/
theorem C7_merger_subject_adoption (results : List (List (String × Json)))
    (hnd : ∀ res ∈ results, (res.map Prod.fst).Nodup) :
    pyDictGet (merge_all_json_outputs results) "main_subject" =
      some (.str (firstTrimmedSubject results)) := by
  unfold merge_all_json_outputs dedupPass
  rw [foldl_dedupStep_not_mem _ _ _ ms_not_mem_LIST_KEYS]
  unfold mergeChunks
  rw [mergeChunks_subject_accum results combinedInit "" hnd combinedInit_get_ms,
    subjectAccum_eq_firstTrimmed]

/-- Witness for C7 (amended): the first non-blank subject wins and is
trimmed. -/
theorem C7_merger_subject_adoption_witness :
    pyDictGet
        (merge_all_json_outputs
          [[("main_subject", Json.str "")], [("main_subject", Json.str " Calculus ")],
           [("main_subject", Json.str "Ignored")]])
        "main_subject" = some (.str "Calculus") :=
  C7_merger_subject_adoption
    [[("main_subject", Json.str "")], [("main_subject", Json.str " Calculus ")],
     [("main_subject", Json.str "Ignored")]]
    (by decide)

/-- Counterexample for C7 as stated: with chunk subjects `" "` then `"X"`, the
first chunk's subject is non-empty, so the claim demands its trimmed value
`""`; the code instead adopts `""` (which stays falsy) and then takes the
later chunk's `"X"`. -/
theorem C7_merger_subject_adoption_counterexample :
    pyDictGet
        (merge_all_json_outputs
          [[("main_subject", Json.str " ")], [("main_subject", Json.str "X")]])
        "main_subject" = some (.str "X") ∧
    specAdoptedSubject
        [[("main_subject", Json.str " ")], [("main_subject", Json.str "X")]] = "" ∧
    ("X" : String) ≠ "" :=
  ⟨rfl, rfl, by decide⟩

/-! ### C3: per-section concatenation and deduplication -/

theorem labelToKey_canonical (k : String) (hk : k ∈ "main_subject" :: LIST_KEYS) :
    labelToKey k = k := by
  fin_cases hk <;> decide

theorem pyDictSet_append_of_not_mem (d : List (String × Json)) (k : String) (v : Json)
    (h : k ∉ d.map Prod.fst) : pyDictSet d k v = d ++ [(k, v)] := by
  induction d with
  | nil => rfl
  | cons p rest ih =>
      obtain ⟨k', v'⟩ := p
      rw [List.map_cons, List.mem_cons] at h
      push_neg at h
      rw [pyDictSet, if_neg (fun hc => h.1 hc.symm), ih h.2]
      rfl

theorem normalizeChunk_eq_self (res : List (String × Json))
    (hkeys : ∀ p ∈ res, p.1 ∈ "main_subject" :: LIST_KEYS)
    (hnd : (res.map Prod.fst).Nodup) : normalizeChunk res = res := by
  unfold normalizeChunk
  have aux : ∀ (l : List (String × Json)) (acc : List (String × Json)),
      (∀ p ∈ l, p.1 ∈ "main_subject" :: LIST_KEYS) →
      (l.map Prod.fst).Nodup →
      (∀ p ∈ l, p.1 ∉ acc.map Prod.fst) →
      l.foldl (fun a p => pyDictSet a (labelToKey p.1) p.2) acc = acc ++ l := by
    intro l
    induction l with
    | nil => intro acc _ _ _; simp
    | cons p rest ih =>
        intro acc hkeys hnd hacc
        obtain ⟨k, v⟩ := p
        rw [List.map_cons, List.nodup_cons] at hnd
        rw [List.foldl_cons]
        rw [show labelToKey (k, v).1 = k from labelToKey_canonical k (hkeys (k, v) (by simp))]
        rw [pyDictSet_append_of_not_mem acc k v (hacc (k, v) (by simp))]
        rw [ih (acc ++ [(k, v)]) (fun q hq => hkeys q (by simp [hq])) hnd.2 ?_]
        · simp
        · intro q hq
          rw [List.map_append, List.mem_append]
          push_neg
          refine ⟨hacc q (by simp [hq]), ?_⟩
          simp only [List.map_cons, List.map_nil, List.mem_cons, List.not_mem_nil]
          intro hc
          rcases hc with hc | hc
          · have hmem : q.1 ∈ rest.map Prod.fst := List.mem_map_of_mem Prod.fst hq
            rw [hc] at hmem
            exact hnd.1 hmem
          · exact hc.elim
  exact aux res [] hkeys hnd (by simp)

theorem itemsConcatKey_of_not_mem (k : String) :
    ∀ (res : List (String × Json)), k ∉ res.map Prod.fst → itemsConcatKey k res = [] := by
  intro res
  induction res with
  | nil => intro _; rfl
  | cons p rest ih =>
      intro h
      obtain ⟨k', v⟩ := p
      rw [List.map_cons, List.mem_cons] at h
      push_neg at h
      rw [itemsConcatKey, if_neg (fun hc => h.1 hc.symm), ih h.2]
      rfl

theorem itemsConcatKey_eq_chunkSection (k : String) (res : List (String × Json))
    (hnd : (res.map Prod.fst).Nodup) : itemsConcatKey k res = chunkSection k res := by
  induction res with
  | nil => rfl
  | cons p rest ih =>
      obtain ⟨k', v⟩ := p
      rw [List.map_cons, List.nodup_cons] at hnd
      rw [itemsConcatKey]
      by_cases h1 : k' = k
      · subst h1
        rw [if_pos rfl, itemsConcatKey_of_not_mem k' rest hnd.1]
        unfold chunkSection
        rw [pyDictGet, if_pos rfl]
        simp
      · rw [if_neg h1]
        unfold chunkSection
        rw [pyDictGet, if_neg h1]
        simpa using ih hnd.2

theorem mergeChunks_section (k : String) (hk : k ∈ LIST_KEYS) :
    ∀ (results : List (List (String × Json))) (c : List (String × Json)) (l0 : List Json),
      (∀ res ∈ results,
        (∀ p ∈ res, p.1 ∈ "main_subject" :: LIST_KEYS) ∧ (res.map Prod.fst).Nodup) →
      pyDictGet c k = some (.arr l0) →
      pyDictGet
          (results.foldl (fun combined res => (normalizeChunk res).foldl mergeItem combined) c)
          k = some (.arr (l0 ++ sectionConcat k results)) := by
  intro results
  induction results with
  | nil => intro c l0 _ h; simpa [sectionConcat] using h
  | cons res rest ih =>
      intro c l0 hres h
      rw [List.foldl_cons]
      have hr := hres res (by simp)
      rw [normalizeChunk_eq_self res hr.1 hr.2]
      have h1 := foldl_mergeItem_section k hk res c l0 h
      rw [itemsConcatKey_eq_chunkSection k res hr.2] at h1
      rw [ih _ _ (fun r hrr => hres r (by simp [hrr])) h1]
      simp [sectionConcat, List.append_assoc]

/-- Amended C3: for chunk results whose keys are the canonical ones (as any
parsed `AnalysisResult` dict has), each merged section equals the stable
concatenation of the chunks' lists for that key, deduplicated
first-occurrence-wins by the `json.dumps(item, sort_keys=True)` hash — i.e.
the order-independent (sorted-keys) JSON serialisation of every item,
including non-dict items, rather than plain string conversion for those. -/
theorem C3_merger_concat_dedup (results : List (List (String × Json))) (k : String)
    (hk : k ∈ LIST_KEYS)
    (hres : ∀ res ∈ results,
      (∀ p ∈ res, p.1 ∈ "main_subject" :: LIST_KEYS) ∧ (res.map Prod.fst).Nodup) :
    pyDictGet (merge_all_json_outputs results) k =
      some (.arr (dedupFirst (sectionConcat k results))) := by
  unfold merge_all_json_outputs dedupPass
  have hmc : pyDictGet (mergeChunks results) k = some (.arr (sectionConcat k results)) := by
    unfold mergeChunks
    have := mergeChunks_section k hk results combinedInit []
      hres (combinedInit_get_section k hk)
    simpa using this
  exact foldl_dedupStep_mem LIST_KEYS LIST_KEYS_nodup _ k _ hk hmc

/-- Witness for C3 (amended) at the spec's own worked example: chunks
contributing `[A]` and `[B, A]` merge to `[A, B]` — concatenation in chunk
order, first occurrence kept. -/
theorem C3_merger_concat_dedup_witness :
    pyDictGet
        (merge_all_json_outputs
          [[("key_points", Json.arr [Json.obj [("text", Json.str "A")]])],
           [("key_points",
             Json.arr [Json.obj [("text", Json.str "B")],
                       Json.obj [("text", Json.str "A")]])]])
        "key_points" =
      some (.arr (dedupFirst (sectionConcat "key_points"
        [[("key_points", Json.arr [Json.obj [("text", Json.str "A")]])],
         [("key_points",
           Json.arr [Json.obj [("text", Json.str "B")],
                     Json.obj [("text", Json.str "A")]])]]))) ∧
    dedupFirst (sectionConcat "key_points"
        [[("key_points", Json.arr [Json.obj [("text", Json.str "A")]])],
         [("key_points",
           Json.arr [Json.obj [("text", Json.str "B")],
                     Json.obj [("text", Json.str "A")]])]]) =
      [Json.obj [("text", Json.str "A")], Json.obj [("text", Json.str "B")]] :=
  ⟨C3_merger_concat_dedup
      [[("key_points", Json.arr [Json.obj [("text", Json.str "A")]])],
       [("key_points",
         Json.arr [Json.obj [("text", Json.str "B")],
                   Json.obj [("text", Json.str "A")]])]]
      "key_points" (by decide)
      (by
        intro res hres
        fin_cases hres <;> exact ⟨by decide, by decide⟩),
   rfl⟩

/-- Counterexample for C3 as stated: with items `1` and `"1"` under
`key_points`, the claim's canonical key (plain string conversion for non-dict
items) identifies them (`str(1) == str("1") == "1"`), so the claimed dedup
would keep only `[1]`; the code hashes with `json.dumps`, which distinguishes
`1` from `"1"`, and keeps both. -/
theorem C3_merger_concat_dedup_counterexample :
    pyDictGet
        (merge_all_json_outputs [[("key_points", Json.arr [Json.int 1, Json.str "1"])]])
        "key_points" = some (.arr [Json.int 1, Json.str "1"]) ∧
    specCanonKey (Json.int 1) = specCanonKey (Json.str "1") ∧
    specDedup (sectionConcat "key_points"
        [[("key_points", Json.arr [Json.int 1, Json.str "1"])]]) = [Json.int 1] ∧
    [Json.int 1, Json.str "1"] ≠ [Json.int 1] :=
  ⟨rfl, rfl, rfl, fun h => by simpa using congrArg List.length h⟩

/-! ### C2: timestamp-bounded segmentation -/

theorem segIdx_cons (text : List Char) (m : TsMatch) (rest : List TsMatch) (i : Nat) :
    segIdx text (m :: rest) (i + 1) = segIdx text rest i := by
  unfold segIdx
  rw [List.getD_cons_succ, List.getD_cons_succ, List.length_cons]
  simp only [Nat.add_lt_add_iff_right]

theorem range_map_segIdx (text : List Char) :
    ∀ ms : List TsMatch, (List.range ms.length).map (segIdx text ms) = segsRec text ms := by
  intro ms
  induction ms with
  | nil => rfl
  | cons m rest ih =>
      rw [List.length_cons, List.range_succ_eq_map, List.map_cons, List.map_map]
      have hcomp : segIdx text (m :: rest) ∘ Nat.succ = segIdx text rest :=
        funext (fun i => segIdx_cons text m rest i)
      rw [hcomp, ih]
      cases rest with
      | nil => rfl
      | cons m2 rest' =>
          show segIdx text (m :: m2 :: rest') 0 :: segsRec text (m2 :: rest') =
            segsRec text (m :: m2 :: rest')
          rw [segsRec]
          congr 1
          unfold segIdx
          rw [List.getD_cons_zero, List.length_cons, List.length_cons,
            if_pos (by omega), List.getD_cons_succ, List.getD_cons_zero]

theorem segsRec_map_time (text : List Char) :
    ∀ ms : List TsMatch, (segsRec text ms).map Segment.time =
      ms.map (fun m => String.mk (sliceLC text m.2.2.1 m.2.2.2)) := by
  intro ms
  induction ms with
  | nil => rfl
  | cons m rest ih =>
      cases rest with
      | nil => rfl
      | cons m2 rest' =>
          rw [segsRec, List.map_cons, List.map_cons, ih]

/-- Amended C2: whenever the text contains at least one timestamp match, the
segments come out in left-to-right match order, each segment's text is the
stripped span from the end of its match to the start of the next match (end of
string for the last), and each segment's `time` field is the raw matched
timestamp token string (e.g. `"00:10"`) — not the parsed integer seconds
value. -/
theorem C2_timestamp_segmentation (text : List Char) (h : tsFind text ≠ []) :
    preprocess_transcript text = segsRec text (tsFind text) ∧
    (preprocess_transcript text).map Segment.time =
      (tsFind text).map (fun m => String.mk (sliceLC text m.2.2.1 m.2.2.2)) := by
  have hpre : preprocess_transcript text = segsRec text (tsFind text) := by
    unfold preprocess_transcript
    rw [if_neg (by simpa [List.isEmpty_iff] using h)]
    exact range_map_segIdx text (tsFind text)
  exact ⟨hpre, by rw [hpre, segsRec_map_time]⟩

/-- Witness for C2 (amended) at the claim's concrete input. -/
theorem C2_timestamp_segmentation_witness :
    preprocess_transcript "[00:10] a [00:45] b".data =
      segsRec "[00:10] a [00:45] b".data (tsFind "[00:10] a [00:45] b".data) :=
  (C2_timestamp_segmentation "[00:10] a [00:45] b".data (by decide)).1

/-- Counterexample for C2 as stated: on `"[00:10] a [00:45] b"` the segments
do come out in order with texts `"a"`, `"b"`, but the `time` fields hold the
raw tokens `"00:10"`, `"00:45"` whose parsed seconds values are `10` and `45`
— not the parsed values themselves (the claim expects `time` to be the integer
10, i.e. the segment `{time: 10, text: "a"}`). -/
theorem C2_timestamp_segmentation_counterexample :
    (preprocess_transcript "[00:10] a [00:45] b".data).map Segment.time =
      ["00:10", "00:45"] ∧
    (preprocess_transcript "[00:10] a [00:45] b".data).map Segment.text = ["a", "b"] ∧
    specTsSeconds "00:10".data = 10 ∧
    specTsSeconds "00:45".data = 45 ∧
    ("00:10" : String) ≠ "10" ∧
    ("00:45" : String) ≠ "45" := by
  refine ⟨by decide, by decide, by decide, by decide, by decide, by decide⟩

end NotesApp
